import Mathlib

/-!
# Verification of the bnc-scraper state-reconciliation engine

A shallow embedding of the order-book merge state machine
(`src/core/bnc/state/book.rs`), the sequence balancer
(`src/core/bnc/state/balancer.rs`), the worker loops
(`src/core/bnc/ws/worker/{depth,price}.rs`) and the price pipeline
initialisation (`src/core/bnc/state/price.rs`), together with proofs of the
functional-correctness and invariant properties stated in the design
specification.

Machine integers (`u64` update ids) are modelled as `Nat`; the one place the
source performs unguarded `u64` subtraction (`update.first_update_id - 1`)
is modelled by a checked subtraction returning `Option Nat`, `none` standing
for the arithmetic-underflow panic.  Fallible operations therefore return
`Option`.  The `tokio::sync::watch` channel used as the sink is modelled by
a liveness flag (a watch-channel `send` fails exactly when the receiver has
been dropped) plus the list of values the channel accepted.
-/

namespace BncScraper

/-- `PriceLevel` from `data.rs`: the textual decimal price, kept as a string
as received from the wire (per the spec's data model). -/
abbrev PriceLevel := String

/-- `Qty` from `data.rs`: the textual decimal quantity. -/
abbrev Qty := String

/-- `InlineOrder`: ordered pair `(level, qty)`; Rust's tuple struct fields
`.0`/`.1` become `.1`/`.2` of the product. -/
abbrev InlineOrder := PriceLevel × Qty

/-- `TableDisplay` from `book.rs`: a list of `(level, qty)` pairs. -/
abbrev TableDisplay := List (PriceLevel × Qty)

/-- Lexicographic comparison of character lists by code point.  This is the
order `Ord for String` induces in Rust (byte-wise comparison of UTF-8, which
coincides with code-point order), i.e. the key order of
`BTreeMap<String, Qty>`. -/
def charListLt : List Char → List Char → Bool
  | _, [] => false
  | [], _ :: _ => true
  | a :: as, b :: bs =>
    if a.toNat < b.toNat then true
    else if b.toNat < a.toNat then false
    else charListLt as bs

/-- The `BTreeMap<String, _>` key order. -/
def strLt (s t : String) : Bool := charListLt s.data t.data

/-- An `OrderTable` (`struct OrderTable(BTreeMap<String, Qty>)`): modelled as
an association list kept sorted by `strLt` with unique keys, which is the
sequence of entries a `BTreeMap` iterates in order. -/
abbrev OrderTable := List (PriceLevel × Qty)

/-- `BTreeMap::insert`-style insertion on the sorted-entry model: overwrite
an equal key, otherwise place the new entry before the first larger key. -/
def tableInsert (level : PriceLevel) (qty : Qty) : OrderTable → OrderTable
  | [] => [(level, qty)]
  | (k, v) :: rest =>
    if level = k then (level, qty) :: rest
    else if strLt level k then (level, qty) :: (k, v) :: rest
    else (k, v) :: tableInsert level qty rest

/-- `BTreeMap::remove` on the model: drop the (unique) entry with this key. -/
def tableRemove (level : PriceLevel) : OrderTable → OrderTable
  | [] => []
  | (k, v) :: rest => if k = level then rest else (k, v) :: tableRemove level rest

/-- `BTreeMap::get` on the model. -/
def tableLookup (level : PriceLevel) : OrderTable → Option Qty
  | [] => none
  | (k, v) :: rest => if k = level then some v else tableLookup level rest

/-- `let qty_not_empty = order.1.chars().any(|char| char != '0' && char != '.')`
from `OrderTable::update_level`. -/
def qty_not_empty (q : Qty) : Bool :=
  q.data.any (fun c => c != '0' && c != '.')

/-- `OrderTable::update_level` (`book.rs:47`): if the quantity's characters
are all `'0'`/`'.'`, remove the level; otherwise insert-or-overwrite
(`Entry::Vacant` inserts, `Entry::Occupied` overwrites). -/
def update_level (t : OrderTable) (order : InlineOrder) : OrderTable :=
  if !qty_not_empty order.2 then tableRemove order.1 t
  else tableInsert order.1 order.2 t

/-- `OrderTable::from_orders`: collecting an iterator of pairs into a
`BTreeMap`; a later entry for the same key overwrites an earlier one. -/
def from_orders (data : List InlineOrder) : OrderTable :=
  data.foldl (fun t o => tableInsert o.1 o.2 t) []

/-- `OrderTable::owned_top` (`book.rs:67`):
`self.0.keys().take(10).rev().map(|key| (key, value))` — the first ten
entries of the map's key-ordered iteration, reversed. -/
def owned_top (t : OrderTable) : TableDisplay :=
  (t.take 10).reverse

/-- `enum OrderBookMode` from `book.rs`. -/
inductive OrderBookMode where
  | snapshot (last_update_id : Nat)
  | update (first_update_id : Nat) (final_update_id : Nat)
deriving DecidableEq

/-- `SymbolDepthUpdate` as consumed by `book.rs`
(`update.first_update_id`, `update.final_update_id`, `update.bids`,
`update.asks`). -/
structure SymbolDepthUpdate where
  first_update_id : Nat
  final_update_id : Nat
  bids : List InlineOrder
  asks : List InlineOrder
deriving DecidableEq

/-- `struct OrderBook` from `book.rs`. -/
structure OrderBook where
  mode : OrderBookMode
  bids : OrderTable
  asks : OrderTable
deriving DecidableEq

/-- `struct OrderBookDisplay` from `book.rs`. -/
structure OrderBookDisplay where
  bids : TableDisplay
  asks : TableDisplay
deriving DecidableEq

/-- Rust `u64` subtraction `n - 1`: defined when `1 ≤ n`, an
arithmetic-underflow panic (`none`) otherwise. -/
def checkedSubOne (n : Nat) : Option Nat :=
  if 1 ≤ n then some (n - 1) else none

/-- `OrderBook::is_update_satisfying` (`book.rs:129`): in `Snapshot` mode
accept iff `update.final_update_id > last_update_id`; in `Update` mode
compute the unguarded `update.first_update_id - 1` (panic on underflow) and
accept iff it equals the stored `final_update_id`; otherwise fall through to
`false`. -/
def is_update_satisfying (book : OrderBook) (update : SymbolDepthUpdate) :
    Option Bool :=
  match book.mode with
  | .snapshot last_update_id =>
    some (decide (update.final_update_id > last_update_id))
  | .update _ final_update_id =>
    match checkedSubOne update.first_update_id with
    | none => none
    | some n => some (decide (n = final_update_id))

/-- `OrderBook::process_depth_update` (`book.rs:116`): set the mode to
`Update` with the update's ids and apply `update_level` for every bid and
ask entry. -/
def process_depth_update (book : OrderBook) (update : SymbolDepthUpdate) :
    OrderBook :=
  { mode := .update update.first_update_id update.final_update_id
    bids := update.bids.foldl update_level book.bids
    asks := update.asks.foldl update_level book.asks }

/-- `OrderBook::add_depth_update` (`book.rs:169`): test admission, merge only
when satisfied, return the admission flag (paired with the resulting book;
`none` is the underflow panic escaping from `is_update_satisfying`). -/
def add_depth_update (book : OrderBook) (update : SymbolDepthUpdate) :
    Option (Bool × OrderBook) :=
  match is_update_satisfying book update with
  | none => none
  | some true => some (true, process_depth_update book update)
  | some false => some (false, book)

/-- `OrderBook::top` (`book.rs:177`). -/
def OrderBook.top (book : OrderBook) : OrderBookDisplay :=
  { asks := owned_top book.asks
    bids := owned_top book.bids }

/-- The outcome of a `send` call, i.e. the `BncResult<()>` values it can
take: `Ok(())`, `Err(DataRejected)` or `Err(DataTransmitError)` (the latter
is the spec's `SinkGone`). -/
inductive BncOutcome where
  | ok
  | rejected
  | transmitError
deriving DecidableEq

/-- `struct MessageBalancer<T>` from `balancer.rs` together with its
`watch::Sender<T>`: the channel is modelled by `sinkAlive` (a watch-channel
`send` fails exactly when every receiver has been dropped) and `sink`, the
values the channel accepted, in order. -/
structure MessageBalancer (α : Type) where
  last_update_id : Option Nat
  sinkAlive : Bool
  sink : List α
deriving DecidableEq

/-- `MessageBalancer::new(sender)`: `last_update_id` starts unset; the
channel starts with a live receiver and no accepted values. -/
def MessageBalancer.new (α : Type) : MessageBalancer α :=
  { last_update_id := none, sinkAlive := true, sink := [] }

/-- `balancer.sender.send(data).map_err(|_| BncError::DataTransmitError)`:
the channel accepts the value when a receiver is alive, otherwise the call
reports `DataTransmitError` and the state is unchanged. -/
def sinkSend {α : Type} (st : MessageBalancer α) (data : α) :
    BncOutcome × MessageBalancer α :=
  if st.sinkAlive then (.ok, { st with sink := st.sink ++ [data] })
  else (.transmitError, st)

/-- `MessageSender::send for Arc<Mutex<MessageBalancer<B>>>`
(`balancer.rs:41`): under the lock, if `last_update_id` is set, accept iff
the item's id is strictly greater (updating it) else return `DataRejected`;
if unset, accept unconditionally and set it; on acceptance forward the item
to the channel.  `idOf` is the `BalancedEntity::update_id` capability. -/
def balancerSend {α : Type} (idOf : α → Nat) (st : MessageBalancer α)
    (data : α) : BncOutcome × MessageBalancer α :=
  match st.last_update_id with
  | some last =>
    if idOf data > last then
      sinkSend { st with last_update_id := some (idOf data) } data
    else (.rejected, st)
  | none => sinkSend { st with last_update_id := some (idOf data) } data

/-- Feed a sequence of items to one balancer's `send` in order, collecting
the outcome of every call. -/
def balancerRun {α : Type} (idOf : α → Nat) (st : MessageBalancer α) :
    List α → MessageBalancer α × List BncOutcome
  | [] => (st, [])
  | d :: rest =>
    let step := balancerSend idOf st d
    let next := balancerRun idOf step.2 rest
    (next.1, step.1 :: next.2)

/-- `struct OrderBookBalancer` from `book.rs` together with its
`watch::Sender<OrderBookDisplay>`, channel modelled as in
`MessageBalancer`. -/
structure OrderBookBalancer where
  book : OrderBook
  sinkAlive : Bool
  sink : List OrderBookDisplay
deriving DecidableEq

/-- `MessageSender::send for Arc<Mutex<OrderBookBalancer>>` (`book.rs:193`):
under the lock, run `add_depth_update` (mutating the book on acceptance);
when rejected return `DataRejected`; when accepted publish `book.top()` to
the channel, reporting `DataTransmitError` if the receiver is gone.  `none`
is the underflow panic escaping from `add_depth_update`. -/
def orderBookBalancerSend (st : OrderBookBalancer)
    (data : SymbolDepthUpdate) : Option (BncOutcome × OrderBookBalancer) :=
  match add_depth_update st.book data with
  | none => none
  | some (is_updated, book) =>
    if is_updated then
      if st.sinkAlive then
        some (.ok, { st with book := book, sink := st.sink ++ [book.top] })
      else some (.transmitError, { st with book := book })
    else some (.rejected, st)

/-- One event observed by a worker's stream loop: either a decoded payload
or a corrupted frame (decode/stream error, which the loop logs and
skips). -/
inductive WsEvent (α : Type) where
  | payload (data : α)
  | corrupted
deriving DecidableEq

/-- Whether an event carries a payload. -/
def WsEvent.hasPayload {α : Type} : WsEvent α → Bool
  | .payload _ => true
  | .corrupted => false

/-- The `while let Some(event) = stream.next()` loop body of
`SymbolPriceWatcher::price_updates_watcher` (`price.rs:112`): corrupted
frames are logged and skipped; every payload is passed to the shared
balancer's `send`, and every outcome (`Ok`, `DataRejected`,
`DataTransmitError`) is merely logged — the loop always continues to the
next event. -/
def priceWorkerRun {α : Type} (idOf : α → Nat) (st : MessageBalancer α) :
    List (WsEvent α) → MessageBalancer α × List BncOutcome
  | [] => (st, [])
  | .corrupted :: rest => priceWorkerRun idOf st rest
  | .payload d :: rest =>
    let step := balancerSend idOf st d
    let next := priceWorkerRun idOf step.2 rest
    (next.1, step.1 :: next.2)

/-- The stream loop of `SymbolDepthWatcher::depth_updates_watcher`
(`depth.rs:79`): corrupted frames are logged and skipped; every payload is
passed to the guarded book balancer's `send`; both `Ok` and `Err` outcomes
are logged with `debug!` and the loop continues.  `none` is the underflow
panic. -/
def depthWorkerRun (st : OrderBookBalancer) :
    List (WsEvent SymbolDepthUpdate) →
    Option (OrderBookBalancer × List BncOutcome)
  | [] => some (st, [])
  | .corrupted :: rest => depthWorkerRun st rest
  | .payload d :: rest =>
    match orderBookBalancerSend st d with
    | none => none
    | some (out, st') =>
      match depthWorkerRun st' rest with
      | none => none
      | some (stf, outs) => some (stf, out :: outs)

/-- `SymbolPriceUpdate` from `price.rs`. -/
structure SymbolPriceUpdate where
  id : Nat
  bid : InlineOrder
  ask : InlineOrder
deriving DecidableEq

/-- `SymbolPriceUpdate::default()`: id `0`, empty bid and ask entries. -/
def SymbolPriceUpdate.default : SymbolPriceUpdate :=
  { id := 0, bid := ("", ""), ask := ("", "") }

/-- `SymbolSnapshot` from `snapshot.rs`. -/
structure SymbolSnapshot where
  last_update_id : Nat
  bids : List InlineOrder
  asks : List InlineOrder
deriving DecidableEq

/-- The state set up by `PriceStateManager::init` (`price.rs:42`) before the
workers are spawned: `channel(SymbolPriceUpdate::default())` seeds the
distribution channel with the default price update, and
`MessageBalancer::new(sender)` creates the balancer.  The pair is
(balancer, the channel's initial value); no snapshot is fetched or consulted
by this function. -/
def priceInit : MessageBalancer SymbolPriceUpdate × SymbolPriceUpdate :=
  (MessageBalancer.new SymbolPriceUpdate, SymbolPriceUpdate.default)

/-- The spec's two-mode admission test of §4.2, stated in the spec's own
arithmetic (refinement reference for the admission claim): in
`Snapshot{last}` accept iff `u.final_update_id > last`; in `Update{_,final}`
accept iff `u.first_update_id - 1 == final`. -/
def admissionSpec (mode : OrderBookMode) (u : SymbolDepthUpdate) : Bool :=
  match mode with
  | .snapshot last => decide (u.final_update_id > last)
  | .update _ final => decide (u.first_update_id - 1 = final)

/-- Merge a sequence of depth updates into a book via `add_depth_update`,
collecting the `final_update_id` of every accepted update in merge order
(`none` is the underflow panic). -/
def runUpdates (book : OrderBook) :
    List SymbolDepthUpdate → Option (OrderBook × List Nat)
  | [] => some (book, [])
  | u :: rest =>
    match add_depth_update book u with
    | none => none
    | some (accepted, book') =>
      match runUpdates book' rest with
      | none => none
      | some (bf, finals) =>
        some (bf, (if accepted then [u.final_update_id] else []) ++ finals)

/-- The id the book's current mode records as its upper bound: the
snapshot's `last_update_id` or the last merge's `final_update_id`. -/
def modeBound (book : OrderBook) : Nat :=
  match book.mode with
  | .snapshot last => last
  | .update _ final => final

/-- Reflexive order on the balancer's optional `last_update_id`: unset is
below everything; set values compare by `≤`. -/
def idLE : Option Nat → Option Nat → Prop
  | none, _ => True
  | some _, none => False
  | some a, some b => a ≤ b

instance : ∀ x y, Decidable (idLE x y) := fun x y => by
  cases x <;> cases y <;> simp [idLE] <;> infer_instance

/-- Rendering of "the worker task terminates on a `SinkGone` outcome" over
the recorded outcome list of a worker loop: a `DataTransmitError` outcome
can only occur as the very last `send` the task performed. -/
def stopsAfterSinkGone (outs : List BncOutcome) : Prop :=
  ∀ i, i < outs.length →
    outs.getD i .ok = .transmitError → i + 1 = outs.length

instance (outs : List BncOutcome) : Decidable (stopsAfterSinkGone outs) :=
  decidable_of_iff
    (∀ i, i < outs.length →
      outs.getD i .ok = .transmitError → i + 1 = outs.length)
    Iff.rfl

/-- Invariant tying a balancer's forwarded items to its stored id: the
forwarded ids are strictly increasing and are all bounded by the stored
`last_update_id` (which in particular is set as soon as anything was
forwarded). -/
def balancerInv {α : Type} (idOf : α → Nat) (st : MessageBalancer α) : Prop :=
  List.Chain' (· < ·) (st.sink.map idOf) ∧
  ∀ x ∈ st.sink.map idOf, ∃ l, st.last_update_id = some l ∧ x ≤ l

/-! ## Theorems -/

/-- C1: for every order book and candidate depth update (with the update's
`first_update_id` at least 1, so that the unguarded `u64` subtraction of the
`Update` branch is defined), `add_depth_update` accepts exactly according to
the spec's two-mode admission test: in `Snapshot{last}` accept iff
`u.final_update_id > last`; in `Update{_, final}` accept iff
`u.first_update_id - 1 == final`; in every other case it rejects. -/
theorem add_depth_update_admission_test (book : OrderBook)
    (u : SymbolDepthUpdate) (h : 1 ≤ u.first_update_id) :
    (add_depth_update book u).map Prod.fst =
      some (admissionSpec book.mode u) := by
  have hsat : is_update_satisfying book u =
      some (admissionSpec book.mode u) := by
    unfold is_update_satisfying admissionSpec checkedSubOne
    cases book.mode with
    | snapshot last => rfl
    | update f fin => simp [h]
  unfold add_depth_update
  rw [hsat]
  cases admissionSpec book.mode u <;> rfl

/-- Witness for C1: the book in `Update{100, 105}` accepts the contiguous
update `{first: 106, final: 110}`. -/
theorem add_depth_update_admission_test_witness :
    1 ≤ (106 : Nat) ∧
      (add_depth_update ⟨.update 100 105, [], []⟩
          ⟨106, 110, [], []⟩).map Prod.fst =
        some (admissionSpec (.update 100 105) ⟨106, 110, [], []⟩) :=
  ⟨by decide,
    add_depth_update_admission_test ⟨.update 100 105, [], []⟩
      ⟨106, 110, [], []⟩ (by decide)⟩

/-- C10: under the precondition `first_update_id ≥ 1`, the unguarded `u64`
subtraction `update.first_update_id - 1` of the `Update`-mode admission test
does not underflow, and `add_depth_update` is total — the underflow/panic
branch (`none`) is unreachable. -/
theorem add_depth_update_total_of_first_pos (book : OrderBook)
    (u : SymbolDepthUpdate) (h : 1 ≤ u.first_update_id) :
    checkedSubOne u.first_update_id = some (u.first_update_id - 1) ∧
      (add_depth_update book u).isSome := by
  constructor
  · unfold checkedSubOne
    simp [h]
  · unfold add_depth_update is_update_satisfying checkedSubOne
    cases book.mode with
    | snapshot last =>
      by_cases hd : last < u.final_update_id <;> simp [hd]
    | update f fin =>
      by_cases hd : u.first_update_id - 1 = fin <;> simp [h, hd]

/-- Witness for C10: at `first_update_id = 106` the subtraction is defined
and the merge into a book in `Update{100, 105}` returns a result. -/
theorem add_depth_update_total_of_first_pos_witness :
    1 ≤ (106 : Nat) ∧
      (checkedSubOne 106 = some (106 - 1) ∧
        (add_depth_update ⟨.update 100 105, [], []⟩
            ⟨106, 110, [], []⟩).isSome) :=
  ⟨by decide,
    add_depth_update_total_of_first_pos ⟨.update 100 105, [], []⟩
      ⟨106, 110, [], []⟩ (by decide)⟩

/-- C6: `add_depth_update` mutates the book iff it returns `true`: on
rejection the mode and both tables are exactly unchanged; on acceptance the
mode becomes `Update{u.first_update_id, u.final_update_id}` and
`update_level` is folded over every bid and ask entry of the update. -/
theorem add_depth_update_mutates_iff_accepted (book : OrderBook)
    (u : SymbolDepthUpdate) (r : Bool × OrderBook)
    (h : add_depth_update book u = some r) :
    (r.1 = false → r.2 = book) ∧
    (r.1 = true →
      r.2.mode = .update u.first_update_id u.final_update_id ∧
      r.2.bids = u.bids.foldl update_level book.bids ∧
      r.2.asks = u.asks.foldl update_level book.asks) := by
  unfold add_depth_update at h
  cases hs : is_update_satisfying book u with
  | none => rw [hs] at h; exact absurd h (by simp)
  | some b =>
    rw [hs] at h
    cases b with
    | false =>
      have hr : r = (false, book) := by
        have := h
        simp only [Option.some.injEq] at this
        exact this.symm
      subst hr
      refine ⟨fun _ => rfl, fun hc => by simp at hc⟩
    | true =>
      have hr : r = (true, process_depth_update book u) := by
        have := h
        simp only [Option.some.injEq] at this
        exact this.symm
      subst hr
      exact ⟨fun hc => by simp at hc,
        fun _ => ⟨rfl, rfl, rfl⟩⟩

/-- Witness for C6: rejecting `{first: 107, final: 112}` against
`Update{100, 105}` leaves the book unchanged, and the `true` branch is
vacuous there. -/
theorem add_depth_update_mutates_iff_accepted_witness :
    add_depth_update ⟨.update 100 105, [("100", "1")], []⟩
        ⟨107, 112, [("100", "0")], []⟩ =
      some (false, ⟨.update 100 105, [("100", "1")], []⟩) ∧
    ((false, (⟨.update 100 105, [("100", "1")], []⟩ : OrderBook)).1 = false →
      (false, (⟨.update 100 105, [("100", "1")], []⟩ : OrderBook)).2 =
        ⟨.update 100 105, [("100", "1")], []⟩) :=
  ⟨by decide,
    (add_depth_update_mutates_iff_accepted
      ⟨.update 100 105, [("100", "1")], []⟩ ⟨107, 112, [("100", "0")], []⟩
      (false, ⟨.update 100 105, [("100", "1")], []⟩) (by decide)).1⟩

/-- C9 counterexample: `PriceStateManager::init` does not seed the
balancer's `last_accepted_id` from a snapshot's id, nor the channel's
initial value from the snapshot's top levels: the balancer starts unset and
the channel is seeded with `SymbolPriceUpdate::default()` — so for the
concrete snapshot `{lastUpdateId: 100, bids: [("10.0","1")],
asks: [("10.1","1")]}` the seeded id is not the snapshot's id. -/
theorem priceInit_not_seeded_from_snapshot :
    priceInit.1.last_update_id = none ∧
    priceInit.2 = SymbolPriceUpdate.default ∧
    ¬ priceInit.1.last_update_id =
        some (SymbolSnapshot.mk 100 [("10.0", "1")]
          [("10.1", "1")]).last_update_id :=
  ⟨rfl, rfl, by decide⟩

/-- C9 (amended): for the price pipeline, `init` creates the balancer with
`last_accepted_id` unset and seeds the distribution channel's initial value
with the default price update (id `0`, empty bid and ask); consequently the
first `send` to the freshly initialised balancer accepts unconditionally.
No snapshot is consulted; the worker pool is spawned afterwards. -/
theorem priceInit_seeds_default_values :
    priceInit.1 = MessageBalancer.new SymbolPriceUpdate ∧
    priceInit.1.last_update_id = none ∧
    priceInit.2 = { id := 0, bid := ("", ""), ask := ("", "") } ∧
    ∀ u : SymbolPriceUpdate,
      (balancerSend SymbolPriceUpdate.id priceInit.1 u).1 = .ok :=
  ⟨rfl, rfl, rfl, fun _ => rfl⟩

/-- C8 counterexample: a `SinkGone` (`DataTransmitError`) outcome does not
terminate a worker task.  With the channel receiver gone, the price worker
loop fed two payloads performs both `send` calls — the second is attempted
after the first already reported `SinkGone`, and the balancer's
`last_accepted_id` advances to the second id — refuting "the worker task
terminates" on the first `SinkGone`. -/
theorem price_worker_continues_after_sink_gone :
    (priceWorkerRun (fun n => n) ⟨none, false, []⟩
        [.payload 1, .payload 2]).2 =
      [.transmitError, .transmitError] ∧
    (priceWorkerRun (fun n => n) ⟨none, false, []⟩
        [.payload 1, .payload 2]).1.last_update_id = some 2 ∧
    ¬ stopsAfterSinkGone (priceWorkerRun (fun n => n) ⟨none, false, []⟩
        [.payload 1, .payload 2]).2 := by
  refine ⟨by decide, by decide, by decide⟩

/-- C3: evaluation of `owned_top` at the spec's own test vector.  On a table
with entries at prices `{100, 101, 99}` the code returns the three entries
in descending lexicographic string order — `99, 101, 100` — not in numeric
best-price order `101, 100, 99`; and on a table with eleven fixed-width
entries `01..11` it returns the ten lexicographically smallest keys
(`10` down to `01`), omitting the numerically best bid price `11`. -/
theorem owned_top_returns_lexicographic_order :
    owned_top (from_orders [("100", "1"), ("101", "1"), ("99", "1")]) =
      [("99", "1"), ("101", "1"), ("100", "1")] ∧
    owned_top (from_orders [("100", "1"), ("101", "1"), ("99", "1")]) ≠
      [("101", "1"), ("100", "1"), ("99", "1")] ∧
    owned_top (from_orders [("01", "1"), ("02", "1"), ("03", "1"),
        ("04", "1"), ("05", "1"), ("06", "1"), ("07", "1"), ("08", "1"),
        ("09", "1"), ("10", "1"), ("11", "1")]) =
      [("10", "1"), ("09", "1"), ("08", "1"), ("07", "1"), ("06", "1"),
        ("05", "1"), ("04", "1"), ("03", "1"), ("02", "1"), ("01", "1")] ∧
    ("11", "1") ∉
      owned_top (from_orders [("01", "1"), ("02", "1"), ("03", "1"),
        ("04", "1"), ("05", "1"), ("06", "1"), ("07", "1"), ("08", "1"),
        ("09", "1"), ("10", "1"), ("11", "1")]) := by
  refine ⟨by decide, by decide, by decide, by decide⟩

/-- C2: `MessageBalancer`'s `send` — the first call (unset
`last_accepted_id`) accepts unconditionally, sets the id and forwards to the
sink; a later call accepts iff its id is strictly greater than the stored
one (updating it and forwarding), and otherwise returns `Rejected` leaving
the state untouched; and the concrete run over ids `[5, 3, 7, 7, 8]`
accepts `5, 7, 8`, rejects `3` and the second `7`, and ends with
`last_accepted_id = 8`. -/
theorem balancer_send_admission {α : Type} (idOf : α → Nat)
    (st : MessageBalancer α) (data : α) (halive : st.sinkAlive = true) :
    (st.last_update_id = none →
      balancerSend idOf st data =
        (.ok, { st with last_update_id := some (idOf data),
                        sink := st.sink ++ [data] })) ∧
    (∀ last, st.last_update_id = some last →
      (idOf data > last →
        balancerSend idOf st data =
          (.ok, { st with last_update_id := some (idOf data),
                          sink := st.sink ++ [data] })) ∧
      (¬ idOf data > last →
        balancerSend idOf st data = (.rejected, st))) ∧
    (balancerRun (fun n => n) (MessageBalancer.new Nat)
        [5, 3, 7, 7, 8]).1.last_update_id = some 8 ∧
    (balancerRun (fun n => n) (MessageBalancer.new Nat)
        [5, 3, 7, 7, 8]).1.sink = [5, 7, 8] ∧
    (balancerRun (fun n => n) (MessageBalancer.new Nat)
        [5, 3, 7, 7, 8]).2 = [.ok, .rejected, .ok, .rejected, .ok] := by
  refine ⟨?_, ?_, by decide, by decide, by decide⟩
  · intro h0
    unfold balancerSend sinkSend
    rw [h0]
    simp [halive]
  · intro last hl
    constructor
    · intro hgt
      unfold balancerSend sinkSend
      rw [hl]
      simp [halive, hgt]
    · intro hngt
      unfold balancerSend
      rw [hl]
      simp [hngt]

/-- Witness for C2: the first `send` of id `5` to a fresh balancer accepts,
stores `5` and forwards the item. -/
theorem balancer_send_admission_witness :
    (MessageBalancer.new Nat).sinkAlive = true ∧
    ((MessageBalancer.new Nat).last_update_id = none →
      balancerSend (fun n => n) (MessageBalancer.new Nat) 5 =
        (.ok, { MessageBalancer.new Nat with
                  last_update_id := some 5, sink := [5] })) :=
  ⟨rfl, (balancer_send_admission (fun n => n)
    (MessageBalancer.new Nat) 5 rfl).1⟩

theorem tableLookup_eq_none_of_not_mem (l : PriceLevel) (t : OrderTable)
    (h : l ∉ t.map Prod.fst) : tableLookup l t = none := by
  induction t with
  | nil => rfl
  | cons p rest ih =>
    obtain ⟨k, v⟩ := p
    simp only [List.map_cons, List.mem_cons, not_or] at h
    show (if k = l then some v else tableLookup l rest) = none
    rw [if_neg (fun hk => h.1 hk.symm)]
    exact ih h.2

theorem tableRemove_lookup_self (l : PriceLevel) (t : OrderTable)
    (hnd : (t.map Prod.fst).Nodup) : tableLookup l (tableRemove l t) = none := by
  induction t with
  | nil => rfl
  | cons p rest ih =>
    obtain ⟨k, v⟩ := p
    simp only [List.map_cons, List.nodup_cons] at hnd
    by_cases hk : k = l
    · subst hk
      show tableLookup k (if k = k then rest else _) = none
      rw [if_pos rfl]
      exact tableLookup_eq_none_of_not_mem _ _ hnd.1
    · show tableLookup l (if k = l then rest else (k, v) :: tableRemove l rest) = none
      rw [if_neg hk]
      show (if k = l then some v else tableLookup l (tableRemove l rest)) = none
      rw [if_neg hk]
      exact ih hnd.2

theorem tableRemove_lookup_ne (k l : PriceLevel) (t : OrderTable)
    (hne : k ≠ l) : tableLookup k (tableRemove l t) = tableLookup k t := by
  induction t with
  | nil => rfl
  | cons p rest ih =>
    obtain ⟨k', v⟩ := p
    by_cases h1 : k' = l
    · subst h1
      show tableLookup k (if k' = k' then rest else _) =
        if k' = k then some v else tableLookup k rest
      rw [if_pos rfl, if_neg (fun h => hne (h.symm))]
    · show tableLookup k (if k' = l then rest else (k', v) :: tableRemove l rest) =
        if k' = k then some v else tableLookup k rest
      rw [if_neg h1]
      show (if k' = k then some v else tableLookup k (tableRemove l rest)) = _
      by_cases h2 : k' = k
      · rw [if_pos h2, if_pos h2]
      · rw [if_neg h2, if_neg h2]
        exact ih

theorem tableRemove_of_lookup_none (l : PriceLevel) (t : OrderTable)
    (h : tableLookup l t = none) : tableRemove l t = t := by
  induction t with
  | nil => rfl
  | cons p rest ih =>
    obtain ⟨k, v⟩ := p
    by_cases hk : k = l
    · exfalso
      rw [show tableLookup l ((k, v) :: rest) =
            (if k = l then some v else tableLookup l rest) from rfl,
        if_pos hk] at h
      exact Option.noConfusion h
    · rw [show tableLookup l ((k, v) :: rest) =
            (if k = l then some v else tableLookup l rest) from rfl,
        if_neg hk] at h
      show (if k = l then rest else (k, v) :: tableRemove l rest) = _
      rw [if_neg hk, ih h]

theorem tableInsert_lookup_self (l : PriceLevel) (q : Qty) (t : OrderTable) :
    tableLookup l (tableInsert l q t) = some q := by
  induction t with
  | nil => show (if l = l then some q else none) = some q; rw [if_pos rfl]
  | cons p rest ih =>
    obtain ⟨k, v⟩ := p
    show tableLookup l
      (if l = k then (l, q) :: rest
       else if strLt l k then (l, q) :: (k, v) :: rest
       else (k, v) :: tableInsert l q rest) = some q
    by_cases hk : l = k
    · rw [if_pos hk]
      show (if l = l then some q else _) = some q
      rw [if_pos rfl]
    · rw [if_neg hk]
      by_cases hlt : strLt l k
      · rw [if_pos hlt]
        show (if l = l then some q else _) = some q
        rw [if_pos rfl]
      · rw [if_neg hlt]
        show (if k = l then some v else tableLookup l (tableInsert l q rest)) = some q
        rw [if_neg (fun h => hk h.symm)]
        exact ih

theorem tableInsert_lookup_ne (k l : PriceLevel) (q : Qty) (t : OrderTable)
    (hne : k ≠ l) : tableLookup k (tableInsert l q t) = tableLookup k t := by
  induction t with
  | nil =>
    show (if l = k then some q else none) = none
    rw [if_neg (fun h => hne (h.symm))]
  | cons p rest ih =>
    obtain ⟨k', v⟩ := p
    show tableLookup k
      (if l = k' then (l, q) :: rest
       else if strLt l k' then (l, q) :: (k', v) :: rest
       else (k', v) :: tableInsert l q rest) = _
    by_cases h1 : l = k'
    · rw [if_pos h1]
      show (if l = k then some q else tableLookup k rest) =
        if k' = k then some v else tableLookup k rest
      rw [if_neg (fun h => hne h.symm), if_neg (fun h => hne (h1 ▸ h).symm)]
    · rw [if_neg h1]
      by_cases hlt : strLt l k'
      · rw [if_pos hlt]
        show (if l = k then some q else tableLookup k ((k', v) :: rest)) = _
        rw [if_neg (fun h => hne h.symm)]
      · rw [if_neg hlt]
        show (if k' = k then some v else tableLookup k (tableInsert l q rest)) =
          if k' = k then some v else tableLookup k rest
        by_cases h2 : k' = k
        · rw [if_pos h2, if_pos h2]
        · rw [if_neg h2, if_neg h2]
          exact ih

theorem qty_not_empty_eq_false_iff (q : Qty) :
    qty_not_empty q = false ↔ ∀ c ∈ q.data, c = '0' ∨ c = '.' := by
  unfold qty_not_empty
  rw [← Bool.not_eq_true, List.any_eq_true]
  push_neg
  constructor
  · intro h c hc
    have hcc := h c hc
    simp only [Bool.and_eq_true, bne_iff_ne, ne_eq, not_and, not_not] at hcc
    by_cases h0 : c = '0'
    · exact Or.inl h0
    · exact Or.inr (hcc h0)
  · intro h c hc
    have hcc := h c hc
    simp only [Bool.and_eq_true, bne_iff_ne, ne_eq, not_and, not_not]
    intro h0
    rcases hcc with h1 | h1
    · exact absurd h1 h0
    · exact h1

/-- C7: `update_level` on a table (unique keys, as in the `BTreeMap`): a
quantity whose characters are all `'0'`/`'.'` (exactly when
`qty_not_empty` is `false`) removes the level — after the call its lookup is
`none`, all other levels are untouched, and when the level was absent the
table is literally unchanged; any other quantity inserts-or-overwrites —
afterwards the level maps to the new quantity and all other levels are
untouched. -/
theorem update_level_zero_removes_otherwise_sets (t : OrderTable)
    (l : PriceLevel) (q : Qty) (hnd : (t.map Prod.fst).Nodup) :
    (qty_not_empty q = false ↔ ∀ c ∈ q.data, c = '0' ∨ c = '.') ∧
    (qty_not_empty q = false →
      tableLookup l (update_level t (l, q)) = none ∧
      (∀ k, k ≠ l → tableLookup k (update_level t (l, q)) = tableLookup k t) ∧
      (tableLookup l t = none → update_level t (l, q) = t)) ∧
    (qty_not_empty q = true →
      tableLookup l (update_level t (l, q)) = some q ∧
      (∀ k, k ≠ l →
        tableLookup k (update_level t (l, q)) = tableLookup k t)) := by
  refine ⟨qty_not_empty_eq_false_iff q, ?_, ?_⟩
  · intro hz
    have hul : update_level t (l, q) = tableRemove l t := by
      unfold update_level
      rw [hz]
      rfl
    rw [hul]
    exact ⟨tableRemove_lookup_self l t hnd,
      fun k hk => tableRemove_lookup_ne k l t hk,
      fun habs => tableRemove_of_lookup_none l t habs⟩
  · intro hnz
    have hul : update_level t (l, q) = tableInsert l q t := by
      unfold update_level
      rw [hnz]
      rfl
    rw [hul]
    exact ⟨tableInsert_lookup_self l q t,
      fun k hk => tableInsert_lookup_ne k l q t hk⟩

/-- Witness for C7: on the one-level table `{"10.0" ↦ "1"}`, quantity
`"0.00000000"` removes the level `"10.0"`. -/
theorem update_level_zero_removes_otherwise_sets_witness :
    ([("10.0", "1")].map (Prod.fst (α := PriceLevel) (β := Qty))).Nodup ∧
    qty_not_empty "0.00000000" = false ∧
    tableLookup "10.0" (update_level [("10.0", "1")] ("10.0", "0.00000000")) =
      none :=
  ⟨by decide, by decide,
    ((update_level_zero_removes_otherwise_sets [("10.0", "1")] "10.0"
      "0.00000000" (by decide)).2.1 (by decide)).1⟩

theorem add_depth_update_false_eq (book : OrderBook)
    (u : SymbolDepthUpdate) (book' : OrderBook)
    (h : add_depth_update book u = some (false, book')) : book' = book := by
  unfold add_depth_update at h
  cases hs : is_update_satisfying book u with
  | none => rw [hs] at h; exact absurd h (by simp)
  | some b =>
    rw [hs] at h
    cases b with
    | false =>
      simp only [Option.some.injEq, Prod.mk.injEq] at h
      exact h.2.symm
    | true => simp at h

theorem add_depth_update_true_eq (book : OrderBook)
    (u : SymbolDepthUpdate) (book' : OrderBook)
    (h : add_depth_update book u = some (true, book')) :
    book' = process_depth_update book u ∧
      is_update_satisfying book u = some true := by
  unfold add_depth_update at h
  cases hs : is_update_satisfying book u with
  | none => rw [hs] at h; exact absurd h (by simp)
  | some b =>
    rw [hs] at h
    cases b with
    | false => simp at h
    | true =>
      simp only [Option.some.injEq, Prod.mk.injEq] at h
      exact ⟨h.2.symm, rfl⟩

theorem modeBound_lt_final_of_satisfying (book : OrderBook)
    (u : SymbolDepthUpdate)
    (hs : is_update_satisfying book u = some true)
    (hwf : u.first_update_id ≤ u.final_update_id) :
    modeBound book < u.final_update_id := by
  unfold is_update_satisfying at hs
  unfold modeBound
  cases hm : book.mode with
  | snapshot last =>
    rw [hm] at hs
    simp only [Option.some.injEq, decide_eq_true_eq] at hs
    exact hs
  | update f fin =>
    rw [hm] at hs
    unfold checkedSubOne at hs
    by_cases h1 : 1 ≤ u.first_update_id
    · rw [if_pos h1] at hs
      simp only [Option.some.injEq, decide_eq_true_eq] at hs
      show fin < u.final_update_id
      omega
    · rw [if_neg h1] at hs
      exact absurd hs (by simp)

theorem runUpdates_chain_from (us : List SymbolDepthUpdate) :
    ∀ (book bf : OrderBook) (fs : List Nat),
      runUpdates book us = some (bf, fs) →
      (∀ u ∈ us, u.first_update_id ≤ u.final_update_id) →
      List.Chain' (· < ·) (modeBound book :: fs) := by
  induction us with
  | nil =>
    intro book bf fs h _
    unfold runUpdates at h
    simp only [Option.some.injEq, Prod.mk.injEq] at h
    rw [← h.2]
    exact List.chain'_singleton _
  | cons u rest ih =>
    intro book bf fs h hwf
    unfold runUpdates at h
    cases ha : add_depth_update book u with
    | none => simp [ha] at h
    | some p =>
      obtain ⟨accepted, book'⟩ := p
      simp only [ha] at h
      cases hr : runUpdates book' rest with
      | none => simp [hr] at h
      | some pr =>
        obtain ⟨bf', fs'⟩ := pr
        simp only [hr] at h
        simp only [Option.some.injEq, Prod.mk.injEq] at h
        cases accepted with
        | false =>
          have hbook : book' = book := add_depth_update_false_eq book u book' ha
          have hfs : fs = fs' := by rw [← h.2]; simp
          rw [hfs, ← hbook]
          exact ih book' bf' fs' hr (fun v hv => hwf v (by simp [hv]))
        | true =>
          obtain ⟨hproc, hsat⟩ := add_depth_update_true_eq book u book' ha
          have hfs : fs = u.final_update_id :: fs' := by rw [← h.2]; rfl
          rw [hfs]
          have hchain := ih book' bf' fs' hr (fun v hv => hwf v (by simp [hv]))
          have hmb : modeBound book' = u.final_update_id := by rw [hproc]; rfl
          rw [hmb] at hchain
          exact List.chain'_cons.mpr
            ⟨modeBound_lt_final_of_satisfying book u hsat (hwf u (by simp)),
              hchain⟩

/-- C5 counterexample: without a well-formedness assumption on the wire
message the accepted `final_update_id` values are not strictly increasing.
From `Snapshot{100}`, the update `{first: 90, final: 105}` is accepted
(105 > 100) putting the book in `Update{90, 105}`; the malformed update
`{first: 106, final: 50}` is then also accepted (106 - 1 = 105), and the
mode records final ids `105, 50` — a strictly decreasing pair. -/
theorem runUpdates_final_can_decrease :
    runUpdates ⟨.snapshot 100, [], []⟩
        [⟨90, 105, [], []⟩, ⟨106, 50, [], []⟩] =
      some (⟨.update 106 50, [], []⟩, [105, 50]) ∧
    ¬ List.Chain' (· < ·) [105, 50] :=
  ⟨by decide, by simp [List.chain'_cons]⟩

/-- C5 (amended): for every order book and every sequence of depth updates
each of which is well-formed in the wire format's sense
(`first_update_id ≤ final_update_id`), the `final_update_id` values of the
accepted (merged) updates, as successively recorded in the book's mode, are
strictly increasing. -/
theorem runUpdates_accepted_finals_increasing (book bf : OrderBook)
    (us : List SymbolDepthUpdate) (fs : List Nat)
    (h : runUpdates book us = some (bf, fs))
    (hwf : ∀ u ∈ us, u.first_update_id ≤ u.final_update_id) :
    List.Chain' (· < ·) fs :=
  (runUpdates_chain_from us book bf fs h hwf).tail

/-- Witness for C5: from `Snapshot{100}`, the well-formed updates
`{101, 105}` then `{106, 110}` are both accepted and record the strictly
increasing finals `105, 110`. -/
theorem runUpdates_accepted_finals_increasing_witness :
    runUpdates ⟨.snapshot 100, [], []⟩
        [⟨101, 105, [], []⟩, ⟨106, 110, [], []⟩] =
      some (⟨.update 106 110, [], []⟩, [105, 110]) ∧
    List.Chain' (· < ·) [105, 110] :=

  ⟨by decide,
    runUpdates_accepted_finals_increasing ⟨.snapshot 100, [], []⟩
      ⟨.update 106 110, [], []⟩ [⟨101, 105, [], []⟩, ⟨106, 110, [], []⟩]
      [105, 110] (by decide) (by decide)⟩

theorem idLE_refl (x : Option Nat) : idLE x x := by
  cases x <;> simp [idLE]

theorem idLE_trans (x y z : Option Nat) (h1 : idLE x y) (h2 : idLE y z) :
    idLE x z := by
  cases x with
  | none => cases z <;> simp [idLE]
  | some a =>
    cases y with
    | none => exact absurd h1 (by simp [idLE])
    | some b =>
      cases z with
      | none => exact absurd h2 (by simp [idLE])
      | some c =>
        simp only [idLE] at h1 h2 ⊢
        omega

theorem sinkSend_last {α : Type} (st : MessageBalancer α) (d : α) :
    (sinkSend st d).2.last_update_id = st.last_update_id := by
  unfold sinkSend
  by_cases h : st.sinkAlive = true <;> simp [h]

theorem balancerSend_last_mono {α : Type} (idOf : α → Nat)
    (st : MessageBalancer α) (d : α) :
    idLE st.last_update_id (balancerSend idOf st d).2.last_update_id := by
  obtain ⟨lastF, aliveF, sinkF⟩ := st
  cases lastF with
  | none => simp [idLE]
  | some last =>
    by_cases hgt : idOf d > last
    · by_cases halive : aliveF = true <;>
        (simp [balancerSend, sinkSend, hgt, halive, idLE]; omega)
    · simp [balancerSend, hgt, idLE]

theorem balancerRun_last_mono {α : Type} (idOf : α → Nat)
    (items : List α) :
    ∀ st : MessageBalancer α,
      idLE st.last_update_id
        (balancerRun idOf st items).1.last_update_id := by
  induction items with
  | nil => intro st; exact idLE_refl _
  | cons d rest ih =>
    intro st
    exact idLE_trans _ _ _ (balancerSend_last_mono idOf st d)
      (ih (balancerSend idOf st d).2)

theorem balancerRun_append {α : Type} (idOf : α → Nat) (pre suf : List α) :
    ∀ st : MessageBalancer α,
      balancerRun idOf st (pre ++ suf) =
        ((balancerRun idOf (balancerRun idOf st pre).1 suf).1,
          (balancerRun idOf st pre).2 ++
            (balancerRun idOf (balancerRun idOf st pre).1 suf).2) := by
  induction pre with
  | nil => intro st; simp [balancerRun]
  | cons d rest ih =>
    intro st
    simp only [List.cons_append, balancerRun, List.append_eq, ih]

theorem balancerSend_inv {α : Type} (idOf : α → Nat)
    (st : MessageBalancer α) (d : α) (h : balancerInv idOf st) :
    balancerInv idOf (balancerSend idOf st d).2 := by
  obtain ⟨lastF, aliveF, sinkF⟩ := st
  obtain ⟨hchain, hbound⟩ := h
  cases lastF with
  | none =>
    have hsink : sinkF = [] := by
      cases hs : sinkF with
      | nil => rfl
      | cons a rest =>
        exfalso
        obtain ⟨l, hl', _⟩ := hbound (idOf a) (by simp [hs])
        exact Option.noConfusion hl'
    subst hsink
    by_cases halive : aliveF = true <;>
      simp [balancerSend, sinkSend, halive, balancerInv]
  | some last =>
    by_cases hgt : idOf d > last
    · by_cases halive : aliveF = true
      · have hres : (balancerSend idOf ⟨some last, aliveF, sinkF⟩ d).2 =
            ⟨some (idOf d), aliveF, sinkF ++ [d]⟩ := by
          simp [balancerSend, sinkSend, hgt, halive]
        rw [hres]
        unfold balancerInv
        constructor
        · show List.Chain' (· < ·) ((sinkF ++ [d]).map idOf)
          rw [List.map_append]
          refine List.chain'_append.mpr
            ⟨hchain, List.chain'_singleton _, ?_⟩
          intro x hx y hy
          simp only [List.map_cons, List.map_nil, List.head?_cons,
            Option.mem_def, Option.some.injEq] at hy
          obtain ⟨hne, hxl⟩ := List.mem_getLast?_eq_getLast hx
          obtain ⟨l, hsl, hxle⟩ := hbound x
            (by rw [hxl]; exact List.getLast_mem hne)
          have hll : l = last :=
            (Option.some.inj (show some last = some l from hsl)).symm
          subst hy
          omega
        · intro x hx
          rw [show (MessageBalancer.mk (α := α) (some (idOf d)) aliveF
              (sinkF ++ [d])).sink = sinkF ++ [d] from rfl,
            List.map_append] at hx
          rcases List.mem_append.mp hx with hold | hnew
          · obtain ⟨l, hsl, hxle⟩ := hbound x hold
            have hll : l = last :=
              (Option.some.inj (show some last = some l from hsl)).symm
            exact ⟨idOf d, rfl, by omega⟩
          · simp only [List.map_cons, List.map_nil,
              List.mem_singleton] at hnew
            exact ⟨idOf d, rfl, le_of_eq hnew⟩
      · have hres : (balancerSend idOf ⟨some last, aliveF, sinkF⟩ d).2 =
            ⟨some (idOf d), aliveF, sinkF⟩ := by
          simp [balancerSend, sinkSend, hgt, halive]
        rw [hres]
        unfold balancerInv
        refine ⟨hchain, ?_⟩
        intro x hx
        obtain ⟨l, hsl, hxle⟩ := hbound x hx
        have hll : l = last :=
          (Option.some.inj (show some last = some l from hsl)).symm
        exact ⟨idOf d, rfl, by omega⟩
    · have hres : (balancerSend idOf ⟨some last, aliveF, sinkF⟩ d).2 =
          ⟨some last, aliveF, sinkF⟩ := by
        simp [balancerSend, hgt]
      rw [hres]
      exact ⟨hchain, hbound⟩

theorem balancerRun_inv {α : Type} (idOf : α → Nat) (items : List α) :
    ∀ st : MessageBalancer α, balancerInv idOf st →
      balancerInv idOf (balancerRun idOf st items).1 := by
  induction items with
  | nil => intro st h; exact h
  | cons d rest ih =>
    intro st h
    exact ih (balancerSend idOf st d).2 (balancerSend_inv idOf st d h)

/-- C4: over the lifetime of one balancer (every run of `send` calls from
the freshly constructed state), the stored `last_accepted_id` never
decreases — after any prefix of the calls it is `idLE`-below its value
after the full sequence — and the sequence of item ids forwarded to the
sink is strictly increasing. -/
theorem balancer_monotone_sink_increasing {α : Type} (idOf : α → Nat)
    (alive : Bool) (items pre suf : List α) (hsplit : items = pre ++ suf) :
    idLE (balancerRun idOf ⟨none, alive, []⟩ pre).1.last_update_id
      (balancerRun idOf ⟨none, alive, []⟩ items).1.last_update_id ∧
    List.Chain' (· < ·)
      ((balancerRun idOf ⟨none, alive, []⟩ items).1.sink.map idOf) := by
  constructor
  · rw [hsplit, balancerRun_append]
    exact balancerRun_last_mono idOf suf _
  · have h := balancerRun_inv idOf items ⟨none, alive, []⟩
      ⟨List.chain'_nil, by simp⟩
    exact h.1

/-- Witness for C4: feeding ids `[5, 3, 7]`, the id stored after the prefix
`[5]` is below the final one, and the forwarded ids are strictly
increasing. -/
theorem balancer_monotone_sink_increasing_witness :
    ([5, 3, 7] : List Nat) = [5] ++ [3, 7] ∧
    (idLE (balancerRun (fun n => n)
        ⟨none, true, []⟩ [5]).1.last_update_id
      (balancerRun (fun n => n)
        ⟨none, true, []⟩ [5, 3, 7]).1.last_update_id ∧
    List.Chain' (· < ·)
      ((balancerRun (fun n => n)
        ⟨none, true, []⟩ [5, 3, 7]).1.sink.map (fun n => n))) :=
  ⟨rfl, balancer_monotone_sink_increasing (fun n => n) true
    [5, 3, 7] [5] [3, 7] rfl⟩

theorem priceWorkerRun_length {α : Type} (idOf : α → Nat)
    (events : List (WsEvent α)) :
    ∀ st : MessageBalancer α,
      (priceWorkerRun idOf st events).2.length =
        (events.filter WsEvent.hasPayload).length := by
  induction events with
  | nil => intro st; rfl
  | cons e rest ih =>
    intro st
    cases e with
    | corrupted =>
      simp [priceWorkerRun, List.filter_cons, WsEvent.hasPayload, ih]
    | payload d =>
      simp [priceWorkerRun, List.filter_cons, WsEvent.hasPayload, ih]

theorem depthWorkerRun_length (devents : List (WsEvent SymbolDepthUpdate)) :
    ∀ (stb : OrderBookBalancer) (res : OrderBookBalancer × List BncOutcome),
      depthWorkerRun stb devents = some res →
      res.2.length = (devents.filter WsEvent.hasPayload).length := by
  induction devents with
  | nil =>
    intro stb res h
    unfold depthWorkerRun at h
    simp only [Option.some.injEq] at h
    rw [← h]
    rfl
  | cons e rest ih =>
    intro stb res h
    cases e with
    | corrupted =>
      unfold depthWorkerRun at h
      simp only [List.filter_cons, WsEvent.hasPayload, Bool.false_eq_true,
        if_false]
      exact ih stb res h
    | payload d =>
      unfold depthWorkerRun at h
      cases hs : orderBookBalancerSend stb d with
      | none => simp [hs] at h
      | some p =>
        obtain ⟨out, st'⟩ := p
        simp only [hs] at h
        cases hr : depthWorkerRun st' rest with
        | none => simp [hr] at h
        | some pr =>
          obtain ⟨stf, outs⟩ := pr
          simp only [hr, Option.some.injEq] at h
          rw [← h]
          simp only [List.filter_cons, List.length_cons]
          rw [if_pos (by simp [WsEvent.hasPayload])]
          simp only [List.length_cons]
          rw [ih st' (stf, outs) hr]

/-- C8 (amended): a `SinkGone` (`DataTransmitError`) outcome from the shared
balancer's `send` does not terminate a worker task; like a `Rejected`
outcome it is only logged.  Both the price worker loop and the depth worker
loop attempt a `send` for every decoded payload of their stream regardless
of the outcomes of earlier calls; a task ends only when its stream ends (or,
for the depth merge, on the `u64` underflow panic). -/
theorem worker_loop_processes_every_payload {α : Type} (idOf : α → Nat)
    (st : MessageBalancer α) (events : List (WsEvent α))
    (stb : OrderBookBalancer) (devents : List (WsEvent SymbolDepthUpdate))
    (res : OrderBookBalancer × List BncOutcome)
    (h : depthWorkerRun stb devents = some res) :
    (priceWorkerRun idOf st events).2.length =
      (events.filter WsEvent.hasPayload).length ∧
    res.2.length = (devents.filter WsEvent.hasPayload).length :=
  ⟨priceWorkerRun_length idOf events st,
    depthWorkerRun_length devents stb res h⟩

/-- Witness for C8: a price worker fed two payloads and one corrupted frame
performs exactly two `send` calls, and a depth worker fed one payload
performs one. -/
theorem worker_loop_processes_every_payload_witness :
    depthWorkerRun ⟨⟨.snapshot 0, [], []⟩, true, []⟩
        [.payload ⟨1, 2, [], []⟩] =
      some (⟨⟨.update 1 2, [], []⟩, true, [⟨[], []⟩]⟩, [.ok]) ∧
    ((priceWorkerRun (fun n => n) (MessageBalancer.new Nat)
        [.payload 5, .corrupted, .payload 6]).2.length =
      (([.payload 5, .corrupted, .payload 6] :
        List (WsEvent Nat)).filter WsEvent.hasPayload).length ∧
    ((⟨⟨.update 1 2, [], []⟩, true, [⟨[], []⟩]⟩, [.ok]) :
        OrderBookBalancer × List BncOutcome).2.length =
      (([.payload ⟨1, 2, [], []⟩] :
        List (WsEvent SymbolDepthUpdate)).filter
          WsEvent.hasPayload).length) :=
  ⟨by decide,
    worker_loop_processes_every_payload (fun n => n)
      (MessageBalancer.new Nat) [.payload 5, .corrupted, .payload 6]
      ⟨⟨.snapshot 0, [], []⟩, true, []⟩ [.payload ⟨1, 2, [], []⟩]
      (⟨⟨.update 1 2, [], []⟩, true, [⟨[], []⟩]⟩, [.ok]) (by decide)⟩

end BncScraper
